import Mathlib

/-!
Verification of the GPU-AV instrumentation core
(`layers/gpu/spirv/pass.h`, `layers/gpu/resources/gpuav_subclasses.h`).

The repository ships the class declarations; method bodies that are not
inline in the headers are modelled from the specification and marked
as such in their doc comments.
-/

namespace gpuav

/-! ## SPIR-V opcodes used by the instrumentation model -/

def OpConstantNull : Nat := 46

def OpFunctionCall : Nat := 57

def OpLoad : Nat := 61

def OpStore : Nat := 62

def OpUConvert : Nat := 113

def OpBitcast : Nat := 124

def OpPhi : Nat := 245

def OpSelectionMerge : Nat := 247

def OpBranch : Nat := 249

def OpBranchConditional : Nat := 250

/-! ## IR model (spec section 3: Module, Function, BasicBlock, Instruction).
An Instruction has an opcode, a result id (0 when it has none; SPIR-V ids
start at 1) and operand ids. -/

structure Instruction where
  opcode : Nat
  resultId : Nat
  operands : List Nat
  deriving DecidableEq, Repr

structure BasicBlock where
  labelId : Nat
  instructions : List Instruction
  deriving DecidableEq, Repr

structure Function where
  blocks : List BasicBlock
  deriving DecidableEq, Repr

structure Module where
  functions : List Function
  nextId : Nat
  deriving DecidableEq, Repr

/-- From `pass.h`: per-injection-site context threaded into every injected
call (current shader stage id, current instruction position id). -/
structure InjectionData where
  stage_info_id : Nat
  inst_position_id : Nat
  deriving DecidableEq, Repr

/-- Per-run scratch state of a `Pass`; `pass.h` line 103 initializes
`target_instruction_` to null. -/
structure PassState where
  target_instruction : Option Instruction
  deriving DecidableEq, Repr

/-- The behaviour a concrete pass plugs into the framework:
the `AnalyzeInstruction` target predicate (its Bool return value) and the
`conditional_function_check_` flag fixed at construction (`pass.h` line 54). -/
structure PassBehavior where
  isTarget : Function → Instruction → Bool
  conditional_function_check : Bool

/-- From `pass.h` line 62 and its comment on line 102: each pass decides in
`AnalyzeInstruction` whether the instruction needs its check injected, and
sets the target-instruction marker when it does. -/
def AnalyzeInstruction (pb : PassBehavior) (st : PassState) (f : Function) (i : Instruction) :
    PassState :=
  if pb.isTarget f i then PassState.mk (some i) else st

/-- From `pass.h` line 69: `clear values incase multiple injections are made`. -/
def PassReset (_st : PassState) : PassState := PassState.mk none

def mkFuncCall (res : Nat) (injd : InjectionData) : Instruction :=
  Instruction.mk OpFunctionCall res [injd.stage_info_id, injd.inst_position_id]

def mkSelectionMerge (mergeLbl : Nat) : Instruction :=
  Instruction.mk OpSelectionMerge 0 [mergeLbl, 0]

def mkBranch (lbl : Nat) : Instruction :=
  Instruction.mk OpBranch 0 [lbl]

def mkBranchConditional (cond thenLbl elseLbl : Nat) : Instruction :=
  Instruction.mk OpBranchConditional 0 [cond, thenLbl, elseLbl]

/-- Value-select node merging the guarded value from the then-path with the
fallback from the head block. -/
def mkPhi (res val1 lbl1 val2 lbl2 : Nat) : Instruction :=
  Instruction.mk OpPhi res [val1, lbl1, val2, lbl2]

def withResultId (i : Instruction) (res : Nat) : Instruction :=
  Instruction.mk i.opcode res i.operands

/-- Trace of the framework calls made by `Run`: each `AnalyzeInstruction`
invocation (recording the marker value it observed on entry) and each
`Reset` call. -/
inductive RunEvent where
  | analyze (f : Function) (inst : Instruction) (markerBefore : Option Instruction)
  | reset
  deriving DecidableEq, Repr

structure RunResult where
  blocks : List BasicBlock
  consts : List Instruction
  fresh : Nat
  events : List RunEvent
  pstate : PassState
  deriving Repr

/-- Modelled from the spec: the instruction loop of `Pass::Run`
(`pass.h` line 37; body not in src). For each instruction it invokes
`AnalyzeInstruction`; on a target it injects the validation call:
conditionally (block split, guarded effect, phi merge for reads) when
`conditional_function_check_` holds, otherwise a plain call before the
unmodified instruction; afterwards it calls `Reset` on the pass. Fresh
result ids are drawn from `fr`. For a conditional site the ids are:
condition `fr`, then-label `fr+1`, merge-label `fr+2`, and for a
read-shaped target additionally zero-constant `fr+3` and the renamed
read result `fr+4`. -/
def runInstrs (pb : PassBehavior) (f : Function) (injd : InjectionData) :
    Nat → List Instruction → List Instruction → Nat → PassState → RunResult
  | lbl, acc, [], fr, st => RunResult.mk [BasicBlock.mk lbl acc] [] fr [] st
  | lbl, acc, t :: rest, fr, st =>
    if pb.isTarget f t then
      if pb.conditional_function_check then
        if t.resultId = 0 then
          -- write-shaped: the guarded store is skipped entirely on failure
          let r := runInstrs pb f injd (fr+2) [] rest (fr+3)
            (PassReset (AnalyzeInstruction pb st f t))
          RunResult.mk
            (BasicBlock.mk lbl (acc ++ [mkFuncCall fr injd, mkSelectionMerge (fr+2),
              mkBranchConditional fr (fr+1) (fr+2)]) ::
             BasicBlock.mk (fr+1) [t, mkBranch (fr+2)] :: r.blocks)
            r.consts r.fresh
            (RunEvent.analyze f t st.target_instruction :: RunEvent.reset :: r.events)
            r.pstate
        else
          -- read-shaped: zero fallback merged through a phi under the original id
          let r := runInstrs pb f injd (fr+2)
            [mkPhi t.resultId (fr+4) (fr+1) (fr+3) lbl] rest (fr+5)
            (PassReset (AnalyzeInstruction pb st f t))
          RunResult.mk
            (BasicBlock.mk lbl (acc ++ [mkFuncCall fr injd, mkSelectionMerge (fr+2),
              mkBranchConditional fr (fr+1) (fr+2)]) ::
             BasicBlock.mk (fr+1) [withResultId t (fr+4), mkBranch (fr+2)] :: r.blocks)
            (Instruction.mk OpConstantNull (fr+3) [] :: r.consts) r.fresh
            (RunEvent.analyze f t st.target_instruction :: RunEvent.reset :: r.events)
            r.pstate
      else
        -- unconditional: call injected, result ignored, instruction untouched
        let r := runInstrs pb f injd lbl (acc ++ [mkFuncCall fr injd, t]) rest (fr+1)
          (PassReset (AnalyzeInstruction pb st f t))
        RunResult.mk r.blocks r.consts r.fresh
          (RunEvent.analyze f t st.target_instruction :: RunEvent.reset :: r.events)
          r.pstate
    else
      let r := runInstrs pb f injd lbl (acc ++ [t]) rest fr (AnalyzeInstruction pb st f t)
      RunResult.mk r.blocks r.consts r.fresh
        (RunEvent.analyze f t st.target_instruction :: r.events)
        r.pstate

/-- Modelled from the spec: `Run` over the ordered blocks of a function. -/
def runBlocks (pb : PassBehavior) (f : Function) (injd : InjectionData) :
    List BasicBlock → Nat → PassState → RunResult
  | [], fr, st => RunResult.mk [] [] fr [] st
  | b :: bs, fr, st =>
    let r1 := runInstrs pb f injd b.labelId [] b.instructions fr st
    let r2 := runBlocks pb f injd bs r1.fresh r1.pstate
    RunResult.mk (r1.blocks ++ r2.blocks) (r1.consts ++ r2.consts) r2.fresh
      (r1.events ++ r2.events) r2.pstate

/-- Modelled from the spec: `Run` over the ordered functions of a module. -/
def runFunctions (pb : PassBehavior) (injd : InjectionData) :
    List Function → Nat → PassState → RunResult
  | [], fr, st => RunResult.mk [] [] fr [] st
  | f :: fs, fr, st =>
    let r1 := runBlocks pb f injd f.blocks fr st
    let r2 := runFunctions pb injd fs r1.fresh r1.pstate
    RunResult.mk (r1.blocks ++ r2.blocks) (r1.consts ++ r2.consts) r2.fresh
      (r1.events ++ r2.events) r2.pstate

/-- Modelled from the spec: `Pass::Run` on a whole module, starting from the
null target-instruction marker of `pass.h` line 103. -/
def Run (pb : PassBehavior) (injd : InjectionData) (m : Module) : RunResult :=
  runFunctions pb injd m.functions m.nextId (PassState.mk none)

/-- Reference shape of the unconditional instrumentation of one block:
a validation call is inserted before each target, everything else is kept. -/
def uncondIns (pb : PassBehavior) (f : Function) (injd : InjectionData) :
    List Instruction → Nat → List Instruction
  | [], _ => []
  | t :: rest, fr =>
    if pb.isTarget f t then mkFuncCall fr injd :: t :: uncondIns pb f injd rest (fr+1)
    else t :: uncondIns pb f injd rest fr

/-- Reset discipline of a run trace: every `AnalyzeInstruction` call that hit
a target is immediately followed by a `Reset` call, and `Reset` is called
only there. -/
inductive ResetDisciplined (pb : PassBehavior) : List RunEvent → Prop where
  | nil : ResetDisciplined pb []
  | cons_nontarget {f i mk evs} : pb.isTarget f i = false → ResetDisciplined pb evs →
      ResetDisciplined pb (RunEvent.analyze f i mk :: evs)
  | cons_target {f i mk evs} : pb.isTarget f i = true → ResetDisciplined pb evs →
      ResetDisciplined pb (RunEvent.analyze f i mk :: RunEvent.reset :: evs)

/-! ## Type-normalization helpers (`pass.h` lines 48-51) -/

/-- Width and integer-ness the module's type manager reports for the value
at an id. -/
structure TypeInfo where
  isInt : Bool
  width : Nat
  deriving DecidableEq, Repr

/-- A conversion instruction already present for `id`. -/
def isUint32Conv (id : Nat) (i : Instruction) : Bool :=
  (i.opcode == OpUConvert || i.opcode == OpBitcast) && i.operands == [id]

/-- Modelled from the spec: body of `Pass::ConvertTo32` (declared `pass.h`
line 50, body not in src). If the value at `id` already has a 32-bit-wide
integer type the id is returned unchanged with no instruction emitted;
otherwise a bit-width conversion is inserted at the insertion point (here:
end of block, per the `pass.h` line 49 comment) and its id returned.
The idempotence the spec requires at the same logical point is realized by
reusing a conversion of `id` already present in the block.
Returns (result id, new block, next fresh id). -/
def ConvertTo32 (typeOf : Nat → TypeInfo) (id : Nat) (blk : List Instruction) (fr : Nat) :
    Nat × List Instruction × Nat :=
  if (typeOf id).isInt && (typeOf id).width == 32 then (id, blk, fr)
  else
    match blk.find? (fun i => isUint32Conv id i) with
    | some i => (i.resultId, blk, fr)
    | none => (fr, blk ++ [Instruction.mk OpUConvert fr [id]], fr + 1)

/-- Modelled from the spec: body of `Pass::CastToUint32` (declared `pass.h`
line 51, body not in src). As `ConvertTo32`, but a non-integer value is
additionally reinterpreted as an unsigned 32-bit integer, still honoring the
no-op-if-already-right-type rule. -/
def CastToUint32 (typeOf : Nat → TypeInfo) (id : Nat) (blk : List Instruction) (fr : Nat) :
    Nat × List Instruction × Nat :=
  if (typeOf id).isInt && (typeOf id).width == 32 then (id, blk, fr)
  else if (typeOf id).isInt then ConvertTo32 typeOf id blk fr
  else
    match blk.find? (fun i => isUint32Conv id i) with
    | some i => (i.resultId, blk, fr)
    | none => (fr, blk ++ [Instruction.mk OpBitcast fr [id]], fr + 1)

/-! ## Descriptor identity layer (spec section 4.2) -/

/-- Modelled from the spec: the `DescriptorHeap` registry of DescriptorIds
(only referenced from `gpuav_subclasses.h`; its code is not in src).
`live` holds ids currently held by live resource objects, `freed` holds
released ids eligible for reuse, `nextId` the never-yet-issued counter. -/
structure DescriptorHeap where
  live : List Nat
  freed : List Nat
  nextId : Nat
  deriving DecidableEq, Repr

/-- Modelled from the spec: id allocation at resource construction; reuses a
released id when one exists, otherwise issues a fresh one. -/
def NextId (h : DescriptorHeap) : Nat × DescriptorHeap :=
  match h.freed with
  | [] => (h.nextId, DescriptorHeap.mk (h.nextId :: h.live) [] (h.nextId + 1))
  | x :: xs => (x, DescriptorHeap.mk (x :: h.live) xs h.nextId)

/-- Modelled from the spec: the destruction hook releases the object's id
back to the heap, making it eligible for reuse. -/
def DeleteId (id : Nat) (h : DescriptorHeap) : DescriptorHeap :=
  if id ∈ h.live then DescriptorHeap.mk (h.live.erase id) (id :: h.freed) h.nextId
  else h

def HeapWF (h : DescriptorHeap) : Prop :=
  h.live.Nodup ∧ h.freed.Nodup ∧ (∀ x ∈ h.freed, x ∉ h.live) ∧
    (∀ x ∈ h.live, x < h.nextId) ∧ (∀ x ∈ h.freed, x < h.nextId)

instance (h : DescriptorHeap) : Decidable (HeapWF h) := by
  unfold HeapWF; infer_instance

inductive HeapOp where
  | alloc
  | free (id : Nat)
  deriving DecidableEq, Repr

def applyOp : HeapOp → DescriptorHeap → DescriptorHeap
  | HeapOp.alloc, h => (NextId h).2
  | HeapOp.free i, h => DeleteId i h

def applyOps : List HeapOp → DescriptorHeap → DescriptorHeap
  | [], h => h
  | o :: os, h => applyOps os (applyOp o h)

/-- Creating n tracked resources in a row: the list of issued ids and the
resulting heap. -/
def allocN : Nat → DescriptorHeap → List Nat × DescriptorHeap
  | 0, h => ([], h)
  | n+1, h =>
    let p := NextId h
    let q := allocN n p.2
    (p.1 :: q.1, q.2)

/-! ## Command-level runtime channel (`gpuav_subclasses.h`) -/

def sizeofUint32 : Nat := 4

/-- From `gpuav_subclasses.h` line 112:
`GetCmdErrorsCountsBufferByteSize() const` returns `8192 * sizeof(uint32_t)`. -/
def GetCmdErrorsCountsBufferByteSize : Nat := 8192 * sizeofUint32

/-- Modelled from the spec: the error-count region plus the error records the
instrumented code has written (body of the recording logic is not in src).
`records` pairs each record with the command index that emitted it; `counts`
is the per-command-slot counter array of the error-count region. -/
structure ErrorChannel where
  records : List (Nat × List Nat)
  counts : List Nat
  deriving DecidableEq, Repr

/-- Modelled from the spec: one violation signalled by command `cmd`.
Below the per-command cap the record is appended and the command's counter
bumped; at the cap the violation is silently dropped. -/
def recordError (cap cmd : Nat) (payload : List Nat) (ch : ErrorChannel) : ErrorChannel :=
  if ch.counts.getD cmd 0 < cap then
    ErrorChannel.mk (ch.records ++ [(cmd, payload)])
      (ch.counts.set cmd (ch.counts.getD cmd 0 + 1))
  else ch

/-- Repeats `recordError` for `v` successive violations signalled by the
same command. -/
def signalErrors (cap cmd : Nat) (payload : List Nat) : Nat → ErrorChannel → ErrorChannel
  | 0, ch => ch
  | v+1, ch => signalErrors cap cmd payload v (recordError cap cmd payload ch)

/-- Number of records present for command `cmd`. -/
def recordsFor (cmd : Nat) (ch : ErrorChannel) : Nat :=
  (ch.records.filter (fun r => r.1 == cmd)).length

/-! ## Buffer-device-address range snapshot (`gpuav_subclasses.h` lines 137-155) -/

/-- The validator-global side: live buffer-device-address ranges and their
current version. -/
structure BdaGlobal where
  ranges : List (Nat × Nat)
  version : Nat
  deriving DecidableEq, Repr

/-- Command-buffer side: the snapshot buffer, its stored version counter
(`bda_ranges_snapshot_version_`, initially 0) and, as instrumentation for the
proofs, a count of rebuilds performed. -/
structure BdaSnapshot where
  ranges : List (Nat × Nat)
  version : Nat
  rebuilds : Nat
  deriving DecidableEq, Repr

/-- Modelled from the spec: body of `CommandBuffer::UpdateBdaRangesBuffer`
(declared `gpuav_subclasses.h` line 138, body not in src): the snapshot is
rebuilt only when its stored version counter is stale relative to the global
version of live ranges. -/
def UpdateBdaRangesBuffer (g : BdaGlobal) (cb : BdaSnapshot) : BdaSnapshot :=
  if cb.version = g.version then cb
  else BdaSnapshot.mk g.ranges g.version (cb.rebuilds + 1)

/-- Modelled from the spec: a change to the set of live address ranges bumps
the 32-bit global version counter. -/
def BumpBdaVersion (newRanges : List (Nat × Nat)) (g : BdaGlobal) : BdaGlobal :=
  BdaGlobal.mk newRanges ((g.version + 1) % 4294967296)

/-! ## CommandBuffer transient state and reset (`gpuav_subclasses.h`) -/

/-- Observable transient state of a gpuav `CommandBuffer` recording: the
per-bind descriptor tracking, command indexes, logger registrations, the two
channel regions (as word arrays) and the snapshot version counter. -/
structure CBState where
  di_input_buffer_list : List Nat
  current_bindless_buffer : Nat
  draw_index : Nat
  compute_index : Nat
  trace_rays_index : Nat
  per_command_error_loggers : List Nat
  error_output_words : List Nat
  cmd_errors_counts_words : List Nat
  bda_ranges_snapshot_version : Nat
  deriving DecidableEq, Repr

/-- Modelled from the spec: `ResetCBState` (declared `gpuav_subclasses.h`
line 134, body not in src) clears all transient state — bind tracking,
logger registrations, snapshot version — and frees the channel buffers. -/
def ResetCBState (_cb : CBState) : CBState :=
  CBState.mk [] 0 0 0 0 [] [] [] 0

/-- Modelled from the spec: `CommandBuffer::Reset` (declared
`gpuav_subclasses.h` line 124, body not in src) resets the transient state. -/
def CBReset (cb : CBState) : CBState := ResetCBState cb

/-- Modelled from the spec: `AllocateResources` (declared
`gpuav_subclasses.h` line 133, body not in src) produces zero-initialized
error-output and error-count regions; the error-count region word count
comes from `GetCmdErrorsCountsBufferByteSize` in src. `n` is the
error-output word count. -/
def AllocateResources (n : Nat) (cb : CBState) : CBState :=
  CBState.mk cb.di_input_buffer_list cb.current_bindless_buffer cb.draw_index
    cb.compute_index cb.trace_rays_index cb.per_command_error_loggers
    (List.replicate n 0)
    (List.replicate (GetCmdErrorsCountsBufferByteSize / sizeofUint32) 0)
    cb.bda_ranges_snapshot_version

/-! ## CommandBuffer accessors with null-handle assertions
(`gpuav_subclasses.h` lines 89-117) -/

def VK_NULL_HANDLE : Nat := 0

/-- The Vulkan handles a gpuav `CommandBuffer` hands out through its
accessors (0 models `VK_NULL_HANDLE`). -/
structure CommandBufferHandles where
  instrumentation_desc_set_layout : Nat
  validation_cmd_desc_set_layout : Nat
  validation_cmd_desc_set : Nat
  error_output_buffer : Nat
  cmd_errors_counts_buffer : Nat
  deriving DecidableEq, Repr

/-- From `gpuav_subclasses.h` lines 89-92: asserts the handle is not null and
returns it; `none` models the assertion firing. -/
def GetInstrumentationDescriptorSetLayout (cb : CommandBufferHandles) : Option Nat :=
  if cb.instrumentation_desc_set_layout = VK_NULL_HANDLE then none
  else some cb.instrumentation_desc_set_layout

/-- From `gpuav_subclasses.h` lines 95-98. -/
def GetValidationCmdCommonDescriptorSet (cb : CommandBufferHandles) : Option Nat :=
  if cb.validation_cmd_desc_set = VK_NULL_HANDLE then none
  else some cb.validation_cmd_desc_set

/-- From `gpuav_subclasses.h` lines 107-110. -/
def GetErrorOutputBuffer (cb : CommandBufferHandles) : Option Nat :=
  if cb.error_output_buffer = VK_NULL_HANDLE then none
  else some cb.error_output_buffer

/-- From `gpuav_subclasses.h` lines 114-117. -/
def GetCmdErrorsCountsBuffer (cb : CommandBufferHandles) : Option Nat :=
  if cb.cmd_errors_counts_buffer = VK_NULL_HANDLE then none
  else some cb.cmd_errors_counts_buffer

/-- Modelled from the spec: the success postcondition of `AllocateResources`
for the handles the four accessors assert on — allocation succeeded for the
current recording, so every channel handle is non-null. -/
def AllocateResourcesSucceeded (cb : CommandBufferHandles) : Prop :=
  cb.instrumentation_desc_set_layout ≠ VK_NULL_HANDLE ∧
  cb.validation_cmd_desc_set ≠ VK_NULL_HANDLE ∧
  cb.error_output_buffer ≠ VK_NULL_HANDLE ∧
  cb.cmd_errors_counts_buffer ≠ VK_NULL_HANDLE

instance (cb : CommandBufferHandles) : Decidable (AllocateResourcesSucceeded cb) := by
  unfold AllocateResourcesSucceeded; infer_instance

/-! ## Theorems -/

lemma find?_append_none {α : Type} (p : α → Bool) :
    ∀ (l1 l2 : List α), l1.find? p = none → (l1 ++ l2).find? p = l2.find? p
  | [], _, _ => rfl
  | a :: l1, l2, h => by
    by_cases hp : p a
    · simp [List.find?_cons, hp] at h
    · simp only [Bool.not_eq_true] at hp
      simp only [List.find?_cons, hp] at h
      simpa only [List.cons_append, List.find?_cons, hp] using find?_append_none p l1 l2 h

lemma isUint32Conv_uconvert (id fr : Nat) :
    isUint32Conv id (Instruction.mk OpUConvert fr [id]) = true := by
  simp [isUint32Conv]

lemma isUint32Conv_bitcast (id fr : Nat) :
    isUint32Conv id (Instruction.mk OpBitcast fr [id]) = true := by
  simp [isUint32Conv, OpBitcast, OpUConvert]

/-- Second call of `ConvertTo32` on the same id at the same insertion point
returns the same id and changes nothing. -/
lemma convertTo32_stable (typeOf : Nat → TypeInfo) (id : Nat) (blk : List Instruction)
    (fr : Nat) :
    ConvertTo32 typeOf id (ConvertTo32 typeOf id blk fr).2.1 (ConvertTo32 typeOf id blk fr).2.2
      = ((ConvertTo32 typeOf id blk fr).1, (ConvertTo32 typeOf id blk fr).2.1,
         (ConvertTo32 typeOf id blk fr).2.2) ∧
    (ConvertTo32 typeOf id blk fr).2.1.length ≤ blk.length + 1 := by
  by_cases hc : ((typeOf id).isInt && (typeOf id).width == 32) = true
  · simp [ConvertTo32, hc]
  · rcases hfind : blk.find? (fun i => isUint32Conv id i) with _ | i
    · have h2 : (blk ++ [Instruction.mk OpUConvert fr [id]]).find?
          (fun i => isUint32Conv id i) = some (Instruction.mk OpUConvert fr [id]) := by
        rw [find?_append_none _ _ _ hfind]
        simp [List.find?_cons, isUint32Conv_uconvert]
      simp [ConvertTo32, hc, hfind, h2]
    · simp [ConvertTo32, hc, hfind]

/-- Second call of `CastToUint32` on the same id at the same insertion point
returns the same id and changes nothing. -/
lemma castToUint32_stable (typeOf : Nat → TypeInfo) (id : Nat) (blk : List Instruction)
    (fr : Nat) :
    CastToUint32 typeOf id (CastToUint32 typeOf id blk fr).2.1 (CastToUint32 typeOf id blk fr).2.2
      = ((CastToUint32 typeOf id blk fr).1, (CastToUint32 typeOf id blk fr).2.1,
         (CastToUint32 typeOf id blk fr).2.2) ∧
    (CastToUint32 typeOf id blk fr).2.1.length ≤ blk.length + 1 := by
  by_cases hc : ((typeOf id).isInt && (typeOf id).width == 32) = true
  · simp [CastToUint32, hc]
  · by_cases hi : (typeOf id).isInt = true
    · have hw : ((typeOf id).width == 32) = false := by
        rcases hb : (typeOf id).width == 32 with _ | _
        · rfl
        · exact absurd (by simp [hi, hb]) hc
      have hdeleg : ∀ b j, CastToUint32 typeOf id b j = ConvertTo32 typeOf id b j := by
        intro b j
        simp [CastToUint32, hi, hw]
      simp only [hdeleg]
      exact convertTo32_stable typeOf id blk fr
    · simp only [Bool.not_eq_true] at hi
      rcases hfind : blk.find? (fun i => isUint32Conv id i) with _ | i
      · have h2 : (blk ++ [Instruction.mk OpBitcast fr [id]]).find?
            (fun i => isUint32Conv id i) = some (Instruction.mk OpBitcast fr [id]) := by
          rw [find?_append_none _ _ _ hfind]
          simp [List.find?_cons, isUint32Conv_bitcast]
        simp [CastToUint32, hc, hi, hfind, h2]
      · simp [CastToUint32, hc, hi, hfind]

/-- C5: `ConvertTo32` (and likewise `CastToUint32`) applied to an id whose
value already has a 32-bit-wide integer type returns that id unchanged and
emits no instruction; calling either twice on the same id at the same
insertion point yields the same result id both times and inserts at most one
new instruction in total, never two (idempotence). -/
theorem convertTo32_noop_and_idempotent (typeOf : Nat → TypeInfo) (id : Nat)
    (blk : List Instruction) (fr : Nat) :
    ((typeOf id).isInt = true → (typeOf id).width = 32 →
      ConvertTo32 typeOf id blk fr = (id, blk, fr) ∧
      CastToUint32 typeOf id blk fr = (id, blk, fr)) ∧
    (ConvertTo32 typeOf id (ConvertTo32 typeOf id blk fr).2.1 (ConvertTo32 typeOf id blk fr).2.2
      = ((ConvertTo32 typeOf id blk fr).1, (ConvertTo32 typeOf id blk fr).2.1,
         (ConvertTo32 typeOf id blk fr).2.2)) ∧
    ((ConvertTo32 typeOf id blk fr).2.1.length ≤ blk.length + 1) ∧
    (CastToUint32 typeOf id (CastToUint32 typeOf id blk fr).2.1
        (CastToUint32 typeOf id blk fr).2.2
      = ((CastToUint32 typeOf id blk fr).1, (CastToUint32 typeOf id blk fr).2.1,
         (CastToUint32 typeOf id blk fr).2.2)) ∧
    ((CastToUint32 typeOf id blk fr).2.1.length ≤ blk.length + 1) := by
  refine ⟨?_, (convertTo32_stable typeOf id blk fr).1, (convertTo32_stable typeOf id blk fr).2,
    (castToUint32_stable typeOf id blk fr).1, (castToUint32_stable typeOf id blk fr).2⟩
  intro h1 h2
  have hc : ((typeOf id).isInt && (typeOf id).width == 32) = true := by simp [h1, h2]
  constructor
  · simp [ConvertTo32, hc]
  · simp [CastToUint32, hc]

theorem convertTo32_noop_and_idempotent_witness :
    ((fun j => TypeInfo.mk true (if j = 3 then 32 else 64)) 3).isInt = true ∧
    ((fun j => TypeInfo.mk true (if j = 3 then 32 else 64)) 3).width = 32 ∧
    ConvertTo32 (fun j => TypeInfo.mk true (if j = 3 then 32 else 64)) 3 [] 100
      = (3, [], 100) := by
  refine ⟨by decide, by decide, ?_⟩
  exact ((convertTo32_noop_and_idempotent
    (fun j => TypeInfo.mk true (if j = 3 then 32 else 64)) 3 [] 100).1
    (by decide) (by decide)).1

lemma updateBda_version (g : BdaGlobal) (cb : BdaSnapshot) :
    (UpdateBdaRangesBuffer g cb).version = g.version := by
  rcases eq_or_ne cb.version g.version with h | h <;> simp [UpdateBdaRangesBuffer, h]

lemma updateBda_noop (g : BdaGlobal) (cb : BdaSnapshot) (h : cb.version = g.version) :
    UpdateBdaRangesBuffer g cb = cb := by
  simp [UpdateBdaRangesBuffer, h]

lemma updateBda_rebuild (g : BdaGlobal) (cb : BdaSnapshot) (h : cb.version ≠ g.version) :
    UpdateBdaRangesBuffer g cb = BdaSnapshot.mk g.ranges g.version (cb.rebuilds + 1) := by
  simp [UpdateBdaRangesBuffer, h]

/-- C7: the buffer-device-address range snapshot is rebuilt only when its
stored version counter is stale: a second consecutive command with no
intervening change performs no rebuild and leaves the snapshot (version
included) unchanged; a change to the live ranges bumps the global version
and forces exactly one rebuild before the next snapshot read. -/
theorem bda_snapshot_rebuilt_only_when_stale (g : BdaGlobal) (cb : BdaSnapshot)
    (r' : List (Nat × Nat)) (hv : g.version < 4294967296) :
    UpdateBdaRangesBuffer g (UpdateBdaRangesBuffer g cb) = UpdateBdaRangesBuffer g cb ∧
    (BumpBdaVersion r' g).version ≠ g.version ∧
    (UpdateBdaRangesBuffer (BumpBdaVersion r' g) (UpdateBdaRangesBuffer g cb)).rebuilds
      = (UpdateBdaRangesBuffer g cb).rebuilds + 1 ∧
    (UpdateBdaRangesBuffer (BumpBdaVersion r' g) (UpdateBdaRangesBuffer g cb)).version
      = (BumpBdaVersion r' g).version ∧
    (UpdateBdaRangesBuffer (BumpBdaVersion r' g) (UpdateBdaRangesBuffer g cb)).ranges = r' ∧
    UpdateBdaRangesBuffer (BumpBdaVersion r' g)
        (UpdateBdaRangesBuffer (BumpBdaVersion r' g) (UpdateBdaRangesBuffer g cb))
      = UpdateBdaRangesBuffer (BumpBdaVersion r' g) (UpdateBdaRangesBuffer g cb) := by
  have hne : (BumpBdaVersion r' g).version ≠ g.version := by
    simp only [BumpBdaVersion]
    omega
  have h1 := updateBda_noop g (UpdateBdaRangesBuffer g cb) (updateBda_version g cb)
  have h2 := updateBda_rebuild (BumpBdaVersion r' g) (UpdateBdaRangesBuffer g cb)
    (by rw [updateBda_version]; exact fun hh => hne hh.symm)
  refine ⟨h1, hne, ?_, ?_, ?_, ?_⟩
  · rw [h2]
  · rw [h2]
  · rw [h2]
    simp [BumpBdaVersion]
  · exact updateBda_noop _ _ (updateBda_version _ _)

theorem bda_snapshot_rebuilt_only_when_stale_witness :
    (BdaGlobal.mk [(1, 2)] 5).version < 4294967296 ∧
    (UpdateBdaRangesBuffer (BdaGlobal.mk [(1, 2)] 5)
        (UpdateBdaRangesBuffer (BdaGlobal.mk [(1, 2)] 5) (BdaSnapshot.mk [] 0 0))
      = UpdateBdaRangesBuffer (BdaGlobal.mk [(1, 2)] 5) (BdaSnapshot.mk [] 0 0)) := by
  refine ⟨by decide, ?_⟩
  exact (bda_snapshot_rebuilt_only_when_stale (BdaGlobal.mk [(1, 2)] 5)
    (BdaSnapshot.mk [] 0 0) [(3, 4)] (by decide)).1

/-- C8: after `CommandBuffer::Reset`, a fresh recording observes a
zero-initialized error-output region and empty per-command error-logger and
bind-tracking lists, with the snapshot version back at 0; the post-reset
state does not depend on the prior recording in any observable way. -/
theorem reset_yields_fresh_recording (cb cb2 : CBState) (n : Nat) :
    (AllocateResources n (CBReset cb)).error_output_words = List.replicate n 0 ∧
    (∀ w ∈ (AllocateResources n (CBReset cb)).error_output_words, w = 0) ∧
    (AllocateResources n (CBReset cb)).per_command_error_loggers = [] ∧
    (AllocateResources n (CBReset cb)).di_input_buffer_list = [] ∧
    (AllocateResources n (CBReset cb)).bda_ranges_snapshot_version = 0 ∧
    AllocateResources n (CBReset cb) = AllocateResources n (CBReset cb2) := by
  refine ⟨rfl, ?_, rfl, rfl, rfl, rfl⟩
  intro w hw
  exact List.eq_of_mem_replicate hw

theorem reset_yields_fresh_recording_witness :
    CBState.per_command_error_loggers
      (AllocateResources 4 (CBReset (CBState.mk [5] 7 1 2 3 [9, 9] [1, 2] [3] 6))) = [] :=
  (reset_yields_fresh_recording (CBState.mk [5] 7 1 2 3 [9, 9] [1, 2] [3] 6)
    (CBState.mk [] 0 0 0 0 [] [] [] 0) 4).2.2.1

/-- C9: the per-command-buffer error channel buffer sized in src
(`GetCmdErrorsCountsBufferByteSize`) is a fixed-width array of unsigned
32-bit words with a capacity of exactly 8192 words, i.e. byte size
8192 * sizeof(uint32_t) = 32768. -/
theorem cmd_errors_counts_buffer_capacity :
    GetCmdErrorsCountsBufferByteSize / sizeofUint32 = 8192 ∧
    GetCmdErrorsCountsBufferByteSize = 8192 * sizeofUint32 ∧
    GetCmdErrorsCountsBufferByteSize = 32768 := by
  decide

/-- C10: under the precondition that resource allocation has succeeded for
the current recording, each of the four channel accessors returns its
non-null handle and its null-handle assertion branch is unreachable. -/
theorem accessors_nonnull_after_allocation (cb : CommandBufferHandles)
    (h : AllocateResourcesSucceeded cb) :
    GetInstrumentationDescriptorSetLayout cb = some cb.instrumentation_desc_set_layout ∧
    GetValidationCmdCommonDescriptorSet cb = some cb.validation_cmd_desc_set ∧
    GetErrorOutputBuffer cb = some cb.error_output_buffer ∧
    GetCmdErrorsCountsBuffer cb = some cb.cmd_errors_counts_buffer := by
  obtain ⟨h1, h2, h3, h4⟩ := h
  refine ⟨?_, ?_, ?_, ?_⟩
  · simp [GetInstrumentationDescriptorSetLayout, h1]
  · simp [GetValidationCmdCommonDescriptorSet, h2]
  · simp [GetErrorOutputBuffer, h3]
  · simp [GetCmdErrorsCountsBuffer, h4]

lemma runInstrs_head (pb : PassBehavior) (f : Function) (injd : InjectionData) :
    ∀ (rest : List Instruction) (lbl : Nat) (acc : List Instruction) (fr : Nat) (st : PassState),
    ∃ s tail, (runInstrs pb f injd lbl acc rest fr st).blocks
      = BasicBlock.mk lbl (acc ++ s) :: tail
  | [], lbl, acc, fr, st => ⟨[], [], by simp [runInstrs]⟩
  | t :: rest, lbl, acc, fr, st => by
    by_cases ht : pb.isTarget f t = true
    · by_cases hc : pb.conditional_function_check = true
      · by_cases hr : t.resultId = 0
        · exact ⟨[mkFuncCall fr injd, mkSelectionMerge (fr+2),
            mkBranchConditional fr (fr+1) (fr+2)],
            BasicBlock.mk (fr+1) [t, mkBranch (fr+2)] :: (runInstrs pb f injd (fr+2) [] rest
              (fr+3) (PassReset (AnalyzeInstruction pb st f t))).blocks,
            by simp [runInstrs, ht, hc, hr]⟩
        · exact ⟨[mkFuncCall fr injd, mkSelectionMerge (fr+2),
            mkBranchConditional fr (fr+1) (fr+2)],
            BasicBlock.mk (fr+1) [withResultId t (fr+4), mkBranch (fr+2)] ::
              (runInstrs pb f injd (fr+2) [mkPhi t.resultId (fr+4) (fr+1) (fr+3) lbl] rest
                (fr+5) (PassReset (AnalyzeInstruction pb st f t))).blocks,
            by simp [runInstrs, ht, hc, hr]⟩
      · obtain ⟨s, tail, hs⟩ := runInstrs_head pb f injd rest lbl
          (acc ++ [mkFuncCall fr injd, t]) (fr+1) (PassReset (AnalyzeInstruction pb st f t))
        refine ⟨[mkFuncCall fr injd, t] ++ s, tail, ?_⟩
        simp only [runInstrs, ht, hc, if_true, if_false, Bool.false_eq_true]
        simp only [hs, List.append_assoc]
    · obtain ⟨s, tail, hs⟩ := runInstrs_head pb f injd rest lbl (acc ++ [t]) fr
        (AnalyzeInstruction pb st f t)
      refine ⟨[t] ++ s, tail, ?_⟩
      simp only [runInstrs, ht, if_false, Bool.false_eq_true]
      simp only [hs, List.append_assoc]

/-- C2: with conditional guarding enabled and a read-shaped target, `Run`
splits the block: the validation call's result id is the condition of the
new conditional branch, the read (under a fresh id) sits alone in the
then-block entered through the branch's true target, a zero constant is
produced for the false path, and the merge block opens with a value-select
phi that carries the read's original result id — so every downstream use of
that id receives the read value on success and zero on failure. -/
theorem conditional_read_guard (pb : PassBehavior) (f : Function) (injd : InjectionData)
    (lbl : Nat) (acc : List Instruction) (t : Instruction) (rest : List Instruction)
    (fr : Nat) (st : PassState) (ht : pb.isTarget f t = true)
    (hc : pb.conditional_function_check = true) (hr : t.resultId ≠ 0) :
    ∃ s tail,
      (runInstrs pb f injd lbl acc (t :: rest) fr st).blocks
        = BasicBlock.mk lbl (acc ++ [mkFuncCall fr injd, mkSelectionMerge (fr+2),
            mkBranchConditional fr (fr+1) (fr+2)]) ::
          BasicBlock.mk (fr+1) [withResultId t (fr+4), mkBranch (fr+2)] ::
          BasicBlock.mk (fr+2) (mkPhi t.resultId (fr+4) (fr+1) (fr+3) lbl :: s) :: tail ∧
      Instruction.mk OpConstantNull (fr+3) []
        ∈ (runInstrs pb f injd lbl acc (t :: rest) fr st).consts := by
  obtain ⟨s, tail, hs⟩ := runInstrs_head pb f injd rest (fr+2)
    [mkPhi t.resultId (fr+4) (fr+1) (fr+3) lbl] (fr+5) (PassReset (AnalyzeInstruction pb st f t))
  refine ⟨s, tail, ?_, ?_⟩
  · simp only [runInstrs, ht, hc, hr, if_true, if_false]
    simp [hs]
  · simp [runInstrs, ht, hc, hr]

theorem conditional_read_guard_witness :
    Instruction.mk OpConstantNull 103 []
      ∈ (runInstrs (PassBehavior.mk (fun _ i => i.opcode == OpLoad) true)
          (Function.mk []) (InjectionData.mk 90 91) 1 []
          [Instruction.mk OpLoad 7 [3]] 100 (PassState.mk none)).consts := by
  obtain ⟨s, tail, _, h2⟩ := conditional_read_guard
    (PassBehavior.mk (fun _ i => i.opcode == OpLoad) true) (Function.mk [])
    (InjectionData.mk 90 91) 1 [] (Instruction.mk OpLoad 7 [3]) [] 100 (PassState.mk none)
    (by decide) (by decide) (by decide)
  exact h2

lemma runInstrs_uncond (pb : PassBehavior) (f : Function) (injd : InjectionData)
    (hc : pb.conditional_function_check = false) :
    ∀ (rest : List Instruction) (lbl : Nat) (acc : List Instruction) (fr : Nat) (st : PassState),
    (runInstrs pb f injd lbl acc rest fr st).blocks
      = [BasicBlock.mk lbl (acc ++ uncondIns pb f injd rest fr)]
  | [], lbl, acc, fr, st => by simp [runInstrs, uncondIns]
  | t :: rest, lbl, acc, fr, st => by
    by_cases ht : pb.isTarget f t = true
    · have IH := runInstrs_uncond pb f injd hc rest lbl (acc ++ [mkFuncCall fr injd, t]) (fr+1)
        (PassReset (AnalyzeInstruction pb st f t))
      simp only [runInstrs, ht, hc, if_true, if_false, Bool.false_eq_true, uncondIns]
      simp [IH, List.append_assoc]
    · have IH := runInstrs_uncond pb f injd hc rest lbl (acc ++ [t]) fr
        (AnalyzeInstruction pb st f t)
      simp only [runInstrs, ht, if_false, Bool.false_eq_true, uncondIns]
      simp [IH, List.append_assoc, ht]

lemma uncondIns_sublist (pb : PassBehavior) (f : Function) (injd : InjectionData) :
    ∀ (rest : List Instruction) (fr : Nat), List.Sublist rest (uncondIns pb f injd rest fr)
  | [], _ => List.nil_sublist _
  | t :: rest, fr => by
    by_cases ht : pb.isTarget f t = true
    · simp only [uncondIns, ht, if_true]
      exact List.Sublist.cons _ (List.Sublist.cons₂ _ (uncondIns_sublist pb f injd rest (fr+1)))
    · simp only [uncondIns, ht, if_false, Bool.false_eq_true]
      exact List.Sublist.cons₂ _ (uncondIns_sublist pb f injd rest fr)

lemma uncondIns_mem (pb : PassBehavior) (f : Function) (injd : InjectionData) :
    ∀ (rest : List Instruction) (fr : Nat) (i : Instruction),
    i ∈ uncondIns pb f injd rest fr →
    i ∈ rest ∨ (i.opcode = OpFunctionCall ∧
      i.operands = [injd.stage_info_id, injd.inst_position_id])
  | [], fr, i => by simp [uncondIns]
  | t :: rest, fr, i => by
    by_cases ht : pb.isTarget f t = true
    · simp only [uncondIns, ht, if_true, List.mem_cons]
      rintro (rfl | rfl | hmem)
      · right
        exact ⟨rfl, rfl⟩
      · left
        exact Or.inl rfl
      · rcases uncondIns_mem pb f injd rest (fr+1) i hmem with h | h
        · left
          exact Or.inr h
        · right
          exact h
    · simp only [uncondIns, ht, if_false, Bool.false_eq_true, List.mem_cons]
      rintro (rfl | hmem)
      · left
        exact Or.inl rfl
      · rcases uncondIns_mem pb f injd rest fr i hmem with h | h
        · left
          exact Or.inr h
        · right
          exact h

/-- C6: with unconditional guarding (`conditional_function_check_` false),
`Run` leaves the block structure intact — the block is not split, keeps its
label, and no branch is inserted: every instruction of the instrumented
block is either an original instruction (all of which are preserved
unmodified and in order, the targets included) or an injected
`OpFunctionCall` whose boolean result id is referenced by no branch or
select, so the targets' behavior is untouched. -/
theorem unconditional_leaves_target_unmodified (pb : PassBehavior) (f : Function)
    (injd : InjectionData) (lbl : Nat) (acc : List Instruction) (rest : List Instruction)
    (fr : Nat) (st : PassState) (hc : pb.conditional_function_check = false) :
    (runInstrs pb f injd lbl acc rest fr st).blocks
      = [BasicBlock.mk lbl (acc ++ uncondIns pb f injd rest fr)] ∧
    List.Sublist rest (uncondIns pb f injd rest fr) ∧
    (∀ i ∈ uncondIns pb f injd rest fr,
      i ∈ rest ∨ (i.opcode = OpFunctionCall ∧
        i.operands = [injd.stage_info_id, injd.inst_position_id])) :=
  ⟨runInstrs_uncond pb f injd hc rest lbl acc fr st,
   uncondIns_sublist pb f injd rest fr,
   fun i hi => uncondIns_mem pb f injd rest fr i hi⟩

theorem unconditional_leaves_target_unmodified_witness :
    (runInstrs (PassBehavior.mk (fun _ i => i.opcode == OpLoad) false)
        (Function.mk []) (InjectionData.mk 90 91) 1 []
        [Instruction.mk OpLoad 7 [3], Instruction.mk OpStore 0 [7]] 100
        (PassState.mk none)).blocks
      = [BasicBlock.mk 1 ([] ++ uncondIns (PassBehavior.mk (fun _ i => i.opcode == OpLoad) false)
          (Function.mk []) (InjectionData.mk 90 91)
          [Instruction.mk OpLoad 7 [3], Instruction.mk OpStore 0 [7]] 100)] :=
  (unconditional_leaves_target_unmodified
    (PassBehavior.mk (fun _ i => i.opcode == OpLoad) false) (Function.mk [])
    (InjectionData.mk 90 91) 1 []
    [Instruction.mk OpLoad 7 [3], Instruction.mk OpStore 0 [7]] 100
    (PassState.mk none) (by decide)).1

lemma resetDisciplined_append {pb : PassBehavior} {l1 l2 : List RunEvent}
    (h1 : ResetDisciplined pb l1) (h2 : ResetDisciplined pb l2) :
    ResetDisciplined pb (l1 ++ l2) := by
  induction h1 with
  | nil => simpa using h2
  | cons_nontarget hft _ ih => exact ResetDisciplined.cons_nontarget hft ih
  | cons_target hft _ ih => exact ResetDisciplined.cons_target hft ih

lemma runInstrs_events (pb : PassBehavior) (f : Function) (injd : InjectionData) :
    ∀ (rest : List Instruction) (lbl : Nat) (acc : List Instruction) (fr : Nat) (st : PassState),
    st.target_instruction = none →
    (runInstrs pb f injd lbl acc rest fr st).pstate.target_instruction = none ∧
    (∀ g j mk, RunEvent.analyze g j mk ∈ (runInstrs pb f injd lbl acc rest fr st).events →
      mk = none) ∧
    ResetDisciplined pb (runInstrs pb f injd lbl acc rest fr st).events ∧
    (∀ i ∈ rest, RunEvent.analyze f i none ∈ (runInstrs pb f injd lbl acc rest fr st).events)
  | [], lbl, acc, fr, st => fun hst => by
    refine ⟨hst, ?_, ?_, ?_⟩
    · intro g j mk hmem
      simp [runInstrs] at hmem
    · simp only [runInstrs]
      exact ResetDisciplined.nil
    · intro i hi
      simp at hi
  | t :: rest, lbl, acc, fr, st => fun hst => by
    by_cases ht : pb.isTarget f t = true
    · have hst2 : (PassReset (AnalyzeInstruction pb st f t)).target_instruction = none := rfl
      by_cases hc : pb.conditional_function_check = true
      · by_cases hr : t.resultId = 0
        · obtain ⟨IH1, IH2, IH3, IH4⟩ := runInstrs_events pb f injd rest (fr+2) [] (fr+3)
            (PassReset (AnalyzeInstruction pb st f t)) hst2
          have ePst : (runInstrs pb f injd lbl acc (t :: rest) fr st).pstate
              = (runInstrs pb f injd (fr+2) [] rest (fr+3)
                (PassReset (AnalyzeInstruction pb st f t))).pstate := by
            simp [runInstrs, ht, hc, hr]
          have eEv : (runInstrs pb f injd lbl acc (t :: rest) fr st).events
              = RunEvent.analyze f t st.target_instruction :: RunEvent.reset ::
                (runInstrs pb f injd (fr+2) [] rest (fr+3)
                  (PassReset (AnalyzeInstruction pb st f t))).events := by
            simp [runInstrs, ht, hc, hr]
          rw [ePst, eEv]
          refine ⟨IH1, ?_, ?_, ?_⟩
          · intro g j mk hmem
            rcases List.mem_cons.mp hmem with heq | hmem2
            · rw [hst] at heq
              cases heq
              rfl
            · rcases List.mem_cons.mp hmem2 with heq | hmem3
              · cases heq
              · exact IH2 g j mk hmem3
          · rw [hst]
            exact ResetDisciplined.cons_target ht IH3
          · intro i hi
            rcases List.mem_cons.mp hi with rfl | hi2
            · rw [hst]
              exact List.mem_cons_self _ _
            · exact List.mem_cons_of_mem _ (List.mem_cons_of_mem _ (IH4 i hi2))
        · obtain ⟨IH1, IH2, IH3, IH4⟩ := runInstrs_events pb f injd rest (fr+2)
            [mkPhi t.resultId (fr+4) (fr+1) (fr+3) lbl] (fr+5)
            (PassReset (AnalyzeInstruction pb st f t)) hst2
          have ePst : (runInstrs pb f injd lbl acc (t :: rest) fr st).pstate
              = (runInstrs pb f injd (fr+2) [mkPhi t.resultId (fr+4) (fr+1) (fr+3) lbl] rest
                (fr+5) (PassReset (AnalyzeInstruction pb st f t))).pstate := by
            simp [runInstrs, ht, hc, hr]
          have eEv : (runInstrs pb f injd lbl acc (t :: rest) fr st).events
              = RunEvent.analyze f t st.target_instruction :: RunEvent.reset ::
                (runInstrs pb f injd (fr+2) [mkPhi t.resultId (fr+4) (fr+1) (fr+3) lbl] rest
                  (fr+5) (PassReset (AnalyzeInstruction pb st f t))).events := by
            simp [runInstrs, ht, hc, hr]
          rw [ePst, eEv]
          refine ⟨IH1, ?_, ?_, ?_⟩
          · intro g j mk hmem
            rcases List.mem_cons.mp hmem with heq | hmem2
            · rw [hst] at heq
              cases heq
              rfl
            · rcases List.mem_cons.mp hmem2 with heq | hmem3
              · cases heq
              · exact IH2 g j mk hmem3
          · rw [hst]
            exact ResetDisciplined.cons_target ht IH3
          · intro i hi
            rcases List.mem_cons.mp hi with rfl | hi2
            · rw [hst]
              exact List.mem_cons_self _ _
            · exact List.mem_cons_of_mem _ (List.mem_cons_of_mem _ (IH4 i hi2))
      · obtain ⟨IH1, IH2, IH3, IH4⟩ := runInstrs_events pb f injd rest lbl
          (acc ++ [mkFuncCall fr injd, t]) (fr+1)
          (PassReset (AnalyzeInstruction pb st f t)) hst2
        have ePst : (runInstrs pb f injd lbl acc (t :: rest) fr st).pstate
            = (runInstrs pb f injd lbl (acc ++ [mkFuncCall fr injd, t]) rest (fr+1)
              (PassReset (AnalyzeInstruction pb st f t))).pstate := by
          simp [runInstrs, ht, hc]
        have eEv : (runInstrs pb f injd lbl acc (t :: rest) fr st).events
            = RunEvent.analyze f t st.target_instruction :: RunEvent.reset ::
              (runInstrs pb f injd lbl (acc ++ [mkFuncCall fr injd, t]) rest (fr+1)
                (PassReset (AnalyzeInstruction pb st f t))).events := by
          simp [runInstrs, ht, hc]
        rw [ePst, eEv]
        refine ⟨IH1, ?_, ?_, ?_⟩
        · intro g j mk hmem
          rcases List.mem_cons.mp hmem with heq | hmem2
          · rw [hst] at heq
            cases heq
            rfl
          · rcases List.mem_cons.mp hmem2 with heq | hmem3
            · cases heq
            · exact IH2 g j mk hmem3
        · rw [hst]
          exact ResetDisciplined.cons_target ht IH3
        · intro i hi
          rcases List.mem_cons.mp hi with rfl | hi2
          · rw [hst]
            exact List.mem_cons_self _ _
          · exact List.mem_cons_of_mem _ (List.mem_cons_of_mem _ (IH4 i hi2))
    · have htf : pb.isTarget f t = false := by
        revert ht
        cases pb.isTarget f t <;> simp
      have hst2 : (AnalyzeInstruction pb st f t).target_instruction = none := by
        simp [AnalyzeInstruction, htf]
        exact hst
      obtain ⟨IH1, IH2, IH3, IH4⟩ := runInstrs_events pb f injd rest lbl (acc ++ [t]) fr
        (AnalyzeInstruction pb st f t) hst2
      have ePst : (runInstrs pb f injd lbl acc (t :: rest) fr st).pstate
          = (runInstrs pb f injd lbl (acc ++ [t]) rest fr
            (AnalyzeInstruction pb st f t)).pstate := by
        simp [runInstrs, htf]
      have eEv : (runInstrs pb f injd lbl acc (t :: rest) fr st).events
          = RunEvent.analyze f t st.target_instruction ::
            (runInstrs pb f injd lbl (acc ++ [t]) rest fr
              (AnalyzeInstruction pb st f t)).events := by
        simp [runInstrs, htf]
      rw [ePst, eEv]
      refine ⟨IH1, ?_, ?_, ?_⟩
      · intro g j mk hmem
        rcases List.mem_cons.mp hmem with heq | hmem2
        · rw [hst] at heq
          cases heq
          rfl
        · exact IH2 g j mk hmem2
      · rw [hst]
        exact ResetDisciplined.cons_nontarget htf IH3
      · intro i hi
        rcases List.mem_cons.mp hi with rfl | hi2
        · rw [hst]
          exact List.mem_cons_self _ _
        · exact List.mem_cons_of_mem _ (IH4 i hi2)

lemma runBlocks_events (pb : PassBehavior) (f : Function) (injd : InjectionData) :
    ∀ (bs : List BasicBlock) (fr : Nat) (st : PassState), st.target_instruction = none →
    (runBlocks pb f injd bs fr st).pstate.target_instruction = none ∧
    (∀ g j mk, RunEvent.analyze g j mk ∈ (runBlocks pb f injd bs fr st).events → mk = none) ∧
    ResetDisciplined pb (runBlocks pb f injd bs fr st).events ∧
    (∀ b ∈ bs, ∀ i ∈ b.instructions,
      RunEvent.analyze f i none ∈ (runBlocks pb f injd bs fr st).events)
  | [], fr, st => fun hst => by
    refine ⟨hst, ?_, ?_, ?_⟩
    · intro g j mk hmem
      simp [runBlocks] at hmem
    · simp only [runBlocks]
      exact ResetDisciplined.nil
    · intro b hb
      simp at hb
  | b :: bs, fr, st => fun hst => by
    obtain ⟨H1, H2, H3, H4⟩ := runInstrs_events pb f injd b.instructions b.labelId [] fr st hst
    obtain ⟨G1, G2, G3, G4⟩ := runBlocks_events pb f injd bs
      (runInstrs pb f injd b.labelId [] b.instructions fr st).fresh
      (runInstrs pb f injd b.labelId [] b.instructions fr st).pstate H1
    have ePst : (runBlocks pb f injd (b :: bs) fr st).pstate
        = (runBlocks pb f injd bs (runInstrs pb f injd b.labelId [] b.instructions fr st).fresh
          (runInstrs pb f injd b.labelId [] b.instructions fr st).pstate).pstate := by
      simp [runBlocks]
    have eEv : (runBlocks pb f injd (b :: bs) fr st).events
        = (runInstrs pb f injd b.labelId [] b.instructions fr st).events ++
          (runBlocks pb f injd bs (runInstrs pb f injd b.labelId [] b.instructions fr st).fresh
            (runInstrs pb f injd b.labelId [] b.instructions fr st).pstate).events := by
      simp [runBlocks]
    rw [ePst, eEv]
    refine ⟨G1, ?_, resetDisciplined_append H3 G3, ?_⟩
    · intro g j mk hmem
      rcases List.mem_append.mp hmem with hm | hm
      · exact H2 g j mk hm
      · exact G2 g j mk hm
    · intro b2 hb2 i hi
      rcases List.mem_cons.mp hb2 with rfl | hb3
      · exact List.mem_append_left _ (H4 i hi)
      · exact List.mem_append_right _ (G4 b2 hb3 i hi)

lemma runFunctions_events (pb : PassBehavior) (injd : InjectionData) :
    ∀ (fs : List Function) (fr : Nat) (st : PassState), st.target_instruction = none →
    (runFunctions pb injd fs fr st).pstate.target_instruction = none ∧
    (∀ g j mk, RunEvent.analyze g j mk ∈ (runFunctions pb injd fs fr st).events → mk = none) ∧
    ResetDisciplined pb (runFunctions pb injd fs fr st).events ∧
    (∀ f ∈ fs, ∀ b ∈ f.blocks, ∀ i ∈ b.instructions,
      RunEvent.analyze f i none ∈ (runFunctions pb injd fs fr st).events)
  | [], fr, st => fun hst => by
    refine ⟨hst, ?_, ?_, ?_⟩
    · intro g j mk hmem
      simp [runFunctions] at hmem
    · simp only [runFunctions]
      exact ResetDisciplined.nil
    · intro f hf
      simp at hf
  | f :: fs, fr, st => fun hst => by
    obtain ⟨H1, H2, H3, H4⟩ := runBlocks_events pb f injd f.blocks fr st hst
    obtain ⟨G1, G2, G3, G4⟩ := runFunctions_events pb injd fs
      (runBlocks pb f injd f.blocks fr st).fresh (runBlocks pb f injd f.blocks fr st).pstate H1
    have ePst : (runFunctions pb injd (f :: fs) fr st).pstate
        = (runFunctions pb injd fs (runBlocks pb f injd f.blocks fr st).fresh
          (runBlocks pb f injd f.blocks fr st).pstate).pstate := by
      simp [runFunctions]
    have eEv : (runFunctions pb injd (f :: fs) fr st).events
        = (runBlocks pb f injd f.blocks fr st).events ++
          (runFunctions pb injd fs (runBlocks pb f injd f.blocks fr st).fresh
            (runBlocks pb f injd f.blocks fr st).pstate).events := by
      simp [runFunctions]
    rw [ePst, eEv]
    refine ⟨G1, ?_, resetDisciplined_append H3 G3, ?_⟩
    · intro g j mk hmem
      rcases List.mem_append.mp hmem with hm | hm
      · exact H2 g j mk hm
      · exact G2 g j mk hm
    · intro f2 hf2 b hb i hi
      rcases List.mem_cons.mp hf2 with rfl | hf3
      · exact List.mem_append_left _ (H4 b hb i hi)
      · exact List.mem_append_right _ (G4 f2 hf3 b hb i hi)

/-- C1: `Pass::Run` invokes `AnalyzeInstruction(function, instruction)` on
every Instruction of every BasicBlock of every Function of the Module, and
calls `Reset` on the pass immediately after processing each injection site,
so the per-run target-instruction marker is always back to null (as the
recorded marker-on-entry of every `AnalyzeInstruction` call shows) and
never carries over from one injection site to the next. -/
theorem run_analyzes_all_and_resets (pb : PassBehavior) (injd : InjectionData) (m : Module) :
    (∀ f ∈ m.functions, ∀ b ∈ f.blocks, ∀ i ∈ b.instructions,
      RunEvent.analyze f i none ∈ (Run pb injd m).events) ∧
    (∀ g j mk, RunEvent.analyze g j mk ∈ (Run pb injd m).events → mk = none) ∧
    ResetDisciplined pb (Run pb injd m).events := by
  obtain ⟨_, h2, h3, h4⟩ := runFunctions_events pb injd m.functions m.nextId
    (PassState.mk none) rfl
  exact ⟨h4, h2, h3⟩

theorem run_analyzes_all_and_resets_witness :
    RunEvent.analyze (Function.mk [BasicBlock.mk 1 [Instruction.mk OpLoad 7 [3],
        Instruction.mk OpStore 0 [7]]]) (Instruction.mk OpStore 0 [7]) none
      ∈ (Run (PassBehavior.mk (fun _ i => i.opcode == OpLoad) true) (InjectionData.mk 90 91)
        (Module.mk [Function.mk [BasicBlock.mk 1 [Instruction.mk OpLoad 7 [3],
          Instruction.mk OpStore 0 [7]]]] 100)).events := by
  exact (run_analyzes_all_and_resets (PassBehavior.mk (fun _ i => i.opcode == OpLoad) true)
    (InjectionData.mk 90 91)
    (Module.mk [Function.mk [BasicBlock.mk 1 [Instruction.mk OpLoad 7 [3],
      Instruction.mk OpStore 0 [7]]]] 100)).1
    (Function.mk [BasicBlock.mk 1 [Instruction.mk OpLoad 7 [3], Instruction.mk OpStore 0 [7]]])
    (by decide)
    (BasicBlock.mk 1 [Instruction.mk OpLoad 7 [3], Instruction.mk OpStore 0 [7]]) (by decide)
    (Instruction.mk OpStore 0 [7]) (by decide)

lemma getD_set_self : ∀ (l : List Nat) (i x : Nat), i < l.length → (l.set i x).getD i 0 = x
  | _ :: _, 0, _, _ => rfl
  | _ :: l, i+1, x, h => getD_set_self l i x (by simpa using h)

lemma recordsFor_append_hit (records : List (Nat × List Nat)) (counts : List Nat)
    (cmd : Nat) (payload : List Nat) :
    recordsFor cmd (ErrorChannel.mk (records ++ [(cmd, payload)]) counts)
      = recordsFor cmd (ErrorChannel.mk records counts) + 1 := by
  simp [recordsFor, List.filter_append]

lemma signalErrors_spec (cap cmd : Nat) (payload : List Nat) :
    ∀ (v : Nat) (ch : ErrorChannel), cmd < ch.counts.length → ch.counts.getD cmd 0 ≤ cap →
      recordsFor cmd (signalErrors cap cmd payload v ch)
        = recordsFor cmd ch + min v (cap - ch.counts.getD cmd 0) ∧
      (signalErrors cap cmd payload v ch).counts.getD cmd 0
        = min (ch.counts.getD cmd 0 + v) cap ∧
      (signalErrors cap cmd payload v ch).counts.length = ch.counts.length
  | 0, ch, _, hle => by
    constructor
    · simp [signalErrors]
    · constructor
      · simp only [signalErrors]
        omega
      · simp [signalErrors]
  | v+1, ch, hlen, hle => by
    by_cases hlt : ch.counts.getD cmd 0 < cap
    · have hrec : recordError cap cmd payload ch
          = ErrorChannel.mk (ch.records ++ [(cmd, payload)])
            (ch.counts.set cmd (ch.counts.getD cmd 0 + 1)) := by
        unfold recordError
        rw [if_pos hlt]
      have hgd : (ch.counts.set cmd (ch.counts.getD cmd 0 + 1)).getD cmd 0
          = ch.counts.getD cmd 0 + 1 := getD_set_self ch.counts cmd _ hlen
      have hlen2 : cmd < (recordError cap cmd payload ch).counts.length := by
        rw [hrec]
        simpa using hlen
      have hle2 : (recordError cap cmd payload ch).counts.getD cmd 0 ≤ cap := by
        rw [hrec]
        simp only [hgd]
        omega
      have IH := signalErrors_spec cap cmd payload v (recordError cap cmd payload ch) hlen2 hle2
      have hstep : signalErrors cap cmd payload (v+1) ch
          = signalErrors cap cmd payload v (recordError cap cmd payload ch) := rfl
      obtain ⟨IH1, IH2, IH3⟩ := IH
      rw [hstep, IH1, IH2, IH3]
      rw [hrec] at *
      have hrf : recordsFor cmd (ErrorChannel.mk (ch.records ++ [(cmd, payload)])
            (ch.counts.set cmd (ch.counts.getD cmd 0 + 1)))
          = recordsFor cmd (ErrorChannel.mk ch.records
            (ch.counts.set cmd (ch.counts.getD cmd 0 + 1))) + 1 :=
        recordsFor_append_hit ch.records _ cmd payload
      have hsame : recordsFor cmd (ErrorChannel.mk ch.records
            (ch.counts.set cmd (ch.counts.getD cmd 0 + 1))) = recordsFor cmd ch := rfl
      rw [hrf, hsame]
      simp only [hgd]
      refine ⟨by omega, by omega, by simp⟩
    · have hrec : recordError cap cmd payload ch = ch := by
        unfold recordError
        rw [if_neg hlt]
      have hstep : signalErrors cap cmd payload (v+1) ch
          = signalErrors cap cmd payload v ch := by
        show signalErrors cap cmd payload v (recordError cap cmd payload ch)
          = signalErrors cap cmd payload v ch
        rw [hrec]
      obtain ⟨IH1, IH2, IH3⟩ := signalErrors_spec cap cmd payload v ch hlen hle
      rw [hstep, IH1, IH2, IH3]
      refine ⟨by omega, by omega, rfl⟩

/-- C3: for a single command, the number of recorded error records never
exceeds the per-command cap enforced through the error-count region: after
`v` violations the command has exactly `min v cap` records (exactly `cap`
when it signalled more than `cap`), and once the command's counter has
saturated a further violation leaves the channel untouched (dropped, not
recorded). -/
theorem per_command_error_cap (cap cmd v : Nat) (payload : List Nat) (ch : ErrorChannel)
    (hlen : cmd < ch.counts.length) (hzero : ch.counts.getD cmd 0 = 0)
    (hempty : recordsFor cmd ch = 0) :
    recordsFor cmd (signalErrors cap cmd payload v ch) ≤ cap ∧
    recordsFor cmd (signalErrors cap cmd payload v ch) = min v cap ∧
    (cap < v → recordsFor cmd (signalErrors cap cmd payload v ch) = cap) ∧
    (∀ ch2 : ErrorChannel, cap ≤ ch2.counts.getD cmd 0 →
      recordError cap cmd payload ch2 = ch2) := by
  obtain ⟨h1, _, _⟩ := signalErrors_spec cap cmd payload v ch hlen (by omega)
  rw [h1, hzero, hempty]
  refine ⟨by omega, by omega, by omega, ?_⟩
  intro ch2 hc2
  have hnlt : ¬ch2.counts.getD cmd 0 < cap := by omega
  unfold recordError
  rw [if_neg hnlt]

theorem per_command_error_cap_witness :
    2 < (ErrorChannel.mk [] [0, 0, 0, 0, 0, 0, 0, 0]).counts.length ∧
    (ErrorChannel.mk [] [0, 0, 0, 0, 0, 0, 0, 0]).counts.getD 2 0 = 0 ∧
    recordsFor 2 (ErrorChannel.mk [] [0, 0, 0, 0, 0, 0, 0, 0]) = 0 ∧
    recordsFor 2 (signalErrors 4 2 [7] 10 (ErrorChannel.mk [] [0, 0, 0, 0, 0, 0, 0, 0])) = 4 := by
  refine ⟨by decide, by decide, by decide, ?_⟩
  exact (per_command_error_cap 4 2 10 [7] (ErrorChannel.mk [] [0, 0, 0, 0, 0, 0, 0, 0])
    (by decide) (by decide) (by decide)).2.2.1 (by decide)

lemma nextId_spec (h : DescriptorHeap) (hwf : HeapWF h) :
    (NextId h).1 ∉ h.live ∧ HeapWF (NextId h).2 ∧ (NextId h).2.live = (NextId h).1 :: h.live := by
  obtain ⟨hln, hfn, hdisj, hllt, hflt⟩ := hwf
  rcases hf : h.freed with _ | ⟨x, xs⟩
  · have e : NextId h = (h.nextId, DescriptorHeap.mk (h.nextId :: h.live) [] (h.nextId + 1)) := by
      simp [NextId, hf]
    rw [e]
    have hfreshmem : h.nextId ∉ h.live := fun hm => absurd (hllt _ hm) (lt_irrefl _)
    refine ⟨hfreshmem, ⟨?_, ?_, ?_, ?_, ?_⟩, rfl⟩
    · exact List.nodup_cons.mpr ⟨hfreshmem, hln⟩
    · exact List.nodup_nil
    · simp
    · intro y hy
      rcases List.mem_cons.mp hy with rfl | hy2
      · exact Nat.lt_succ_self _
      · exact Nat.lt_succ_of_lt (hllt _ hy2)
    · simp
  · have e : NextId h = (x, DescriptorHeap.mk (x :: h.live) xs h.nextId) := by
      simp [NextId, hf]
    rw [e]
    have hxf : x ∈ h.freed := by rw [hf]; exact List.mem_cons_self x xs
    have hxl : x ∉ h.live := hdisj _ hxf
    rw [hf] at hfn
    have hxxs : x ∉ xs := (List.nodup_cons.mp hfn).1
    refine ⟨hxl, ⟨?_, ?_, ?_, ?_, ?_⟩, rfl⟩
    · exact List.nodup_cons.mpr ⟨hxl, hln⟩
    · exact (List.nodup_cons.mp hfn).2
    · intro y hy
      have hyf : y ∈ h.freed := by rw [hf]; exact List.mem_cons_of_mem x hy
      have hyl : y ∉ h.live := hdisj _ hyf
      intro hc
      rcases List.mem_cons.mp hc with rfl | hc2
      · exact hxxs hy
      · exact hyl hc2
    · intro y hy
      rcases List.mem_cons.mp hy with rfl | hy2
      · exact hflt _ hxf
      · exact hllt _ hy2
    · intro y hy
      exact hflt _ (by rw [hf]; exact List.mem_cons_of_mem x hy)

lemma deleteId_spec (id : Nat) (h : DescriptorHeap) (hwf : HeapWF h) :
    HeapWF (DeleteId id h) ∧
    (id ∈ h.live → (DeleteId id h).live = h.live.erase id ∧ id ∉ (DeleteId id h).live ∧
      (DeleteId id h).freed = id :: h.freed) := by
  obtain ⟨hln, hfn, hdisj, hllt, hflt⟩ := hwf
  by_cases hm : id ∈ h.live
  · have e : DeleteId id h = DescriptorHeap.mk (h.live.erase id) (id :: h.freed) h.nextId := by
      simp [DeleteId, hm]
    rw [e]
    have hif : id ∉ h.freed := fun hc => (hdisj _ hc) hm
    have hnotin : id ∉ h.live.erase id := fun hc =>
      absurd (hln.mem_erase_iff.mp hc).1 (by simp)
    refine ⟨⟨hln.erase id, List.nodup_cons.mpr ⟨hif, hfn⟩, ?_, ?_, ?_⟩, fun _ => ⟨rfl, hnotin, rfl⟩⟩
    · intro y hy
      rcases List.mem_cons.mp hy with rfl | hy2
      · exact hnotin
      · exact fun hc => (hdisj _ hy2) (List.mem_of_mem_erase hc)
    · intro y hy
      exact hllt _ (List.mem_of_mem_erase hy)
    · intro y hy
      rcases List.mem_cons.mp hy with rfl | hy2
      · exact hllt _ hm
      · exact hflt _ hy2
  · have e : DeleteId id h = h := by simp [DeleteId, hm]
    rw [e]
    exact ⟨⟨hln, hfn, hdisj, hllt, hflt⟩, fun hc => absurd hc hm⟩

lemma applyOps_wf : ∀ (ops : List HeapOp) (h : DescriptorHeap), HeapWF h →
    HeapWF (applyOps ops h)
  | [], _, hwf => hwf
  | o :: os, h, hwf => by
    have hstep : HeapWF (applyOp o h) := by
      cases o with
      | alloc => exact (nextId_spec h hwf).2.1
      | free i => exact (deleteId_spec i h hwf).1
    exact applyOps_wf os (applyOp o h) hstep

lemma allocN_spec : ∀ (n : Nat) (h : DescriptorHeap), HeapWF h →
    (allocN n h).1.Nodup ∧ (allocN n h).1.length = n ∧ HeapWF (allocN n h).2 ∧
    (∀ x ∈ (allocN n h).1, x ∈ (allocN n h).2.live) ∧
    (∀ x ∈ h.live, x ∈ (allocN n h).2.live) ∧
    (∀ x ∈ (allocN n h).1, x ∉ h.live)
  | 0, h, hwf => by
    refine ⟨List.nodup_nil, rfl, hwf, ?_, ?_, ?_⟩ <;> simp [allocN]
  | n+1, h, hwf => by
    obtain ⟨hfresh, hwf2, hlive2⟩ := nextId_spec h hwf
    obtain ⟨IH1, IH2, IH3, IH4, IH5, IH6⟩ := allocN_spec n (NextId h).2 hwf2
    have e : allocN (n+1) h = ((NextId h).1 :: (allocN n (NextId h).2).1,
        (allocN n (NextId h).2).2) := by
      simp [allocN]
    rw [e]
    have hmem1 : (NextId h).1 ∈ (NextId h).2.live := by
      rw [hlive2]
      exact List.mem_cons_self _ _
    have hnotin : (NextId h).1 ∉ (allocN n (NextId h).2).1 := fun hc => (IH6 _ hc) hmem1
    refine ⟨List.nodup_cons.mpr ⟨hnotin, IH1⟩, by simpa using IH2, IH3, ?_, ?_, ?_⟩
    · intro x hx
      rcases List.mem_cons.mp hx with rfl | hx2
      · exact IH5 _ hmem1
      · exact IH4 _ hx2
    · intro x hx
      refine IH5 _ ?_
      rw [hlive2]
      exact List.mem_cons_of_mem _ hx
    · intro x hx
      rcases List.mem_cons.mp hx with rfl | hx2
      · exact hfresh
      · intro hc
        refine IH6 _ hx2 ?_
        rw [hlive2]
        exact List.mem_cons_of_mem _ hc

/-- C4: for every sequence of allocations and frees on the DescriptorHeap,
liveness of ids is well-formed: the heap never hands out an id currently
held by a live object, N successive allocations yield N pairwise-distinct
ids, and destroying an object removes its id from the live set and releases
it to the reuse pool. -/
theorem descriptor_id_uniqueness (h : DescriptorHeap) (ops : List HeapOp) (n id : Nat)
    (hwf : HeapWF h) :
    HeapWF (applyOps ops h) ∧
    (NextId (applyOps ops h)).1 ∉ (applyOps ops h).live ∧
    (allocN n (applyOps ops h)).1.Nodup ∧
    (allocN n (applyOps ops h)).1.length = n ∧
    (id ∈ (applyOps ops h).live →
      id ∉ (DeleteId id (applyOps ops h)).live ∧
      (DeleteId id (applyOps ops h)).freed = id :: (applyOps ops h).freed) := by
  have hwf2 := applyOps_wf ops h hwf
  obtain ⟨ha1, _, ha3⟩ := nextId_spec (applyOps ops h) hwf2
  obtain ⟨hb1, hb2, _, _, _, _⟩ := allocN_spec n (applyOps ops h) hwf2
  obtain ⟨_, hd⟩ := deleteId_spec id (applyOps ops h) hwf2
  exact ⟨hwf2, ha1, hb1, hb2, fun hm => ⟨(hd hm).2.1, (hd hm).2.2⟩⟩

theorem descriptor_id_uniqueness_witness :
    HeapWF (DescriptorHeap.mk [] [] 0) ∧
    (allocN 3 (applyOps [HeapOp.alloc, HeapOp.alloc, HeapOp.free 0, HeapOp.alloc]
      (DescriptorHeap.mk [] [] 0))).1.Nodup := by
  refine ⟨by decide, ?_⟩
  exact (descriptor_id_uniqueness (DescriptorHeap.mk [] [] 0)
    [HeapOp.alloc, HeapOp.alloc, HeapOp.free 0, HeapOp.alloc] 3 1 (by decide)).2.2.1

theorem accessors_nonnull_after_allocation_witness :
    AllocateResourcesSucceeded (CommandBufferHandles.mk 1 2 3 4 5) ∧
    GetErrorOutputBuffer (CommandBufferHandles.mk 1 2 3 4 5) = some 4 := by
  refine ⟨by decide, ?_⟩
  exact (accessors_nonnull_after_allocation (CommandBufferHandles.mk 1 2 3 4 5)
    (by decide)).2.2.1

end gpuav
